import Mathlib

/-!
Verification of the sodiumoxide keyed-authentication (MAC) abstraction layer
(`src/crypto/auth/auth_macros.rs`).

The repository code is a pair of Rust macro templates generated per concrete
algorithm.  The underlying MAC transform is an external primitive (libsodium
FFI functions bound to the macro parameters `auth_name`, `verify_name`,
`init_name`, `update_name`, `final_name`); following the design document it is
treated as a black box, embedded here as a structure of opaque byte-level
functions (`MacPrimitive`).  The wrapper code of the repository is embedded
faithfully on top of it: `authenticate`, `verify`, and the streaming
`State.init` / `State.update` / `State.finalize`, plus the memory-zeroing
drop glue.  Bytes are modelled as natural numbers, byte buffers as lists,
and the C context struct as its raw memory bytes (a list), so that the
`sodium_memzero` call of the `Drop` implementation is expressible.
-/

namespace SodiumAuth

/-- The external MAC primitive bound to the macro parameters.  Each field is
one of the C functions the generated module delegates to, written as a pure
function on byte lists: `auth_name tag_out` computes the one-shot tag of a
message under a key, `verify_name` returns the C int result of the one-shot
verification, and `init_name` / `update_name` / `final_name` operate on the
raw bytes of the C streaming context (`final_name` returns both the tag it
writes and the mutated context memory).  `keybytes` and `tagbytes` are the
macro's size parameters. -/
structure MacPrimitive where
  keybytes : Nat
  tagbytes : Nat
  auth_name : List Nat → List Nat → List Nat
  verify_name : List Nat → List Nat → List Nat → Int
  init_name : List Nat → List Nat
  update_name : List Nat → List Nat → List Nat
  final_name : List Nat → List Nat × List Nat

/-- Authentication `Key`: `pub struct Key(pub [u8; KEYBYTES])`. -/
structure Key where
  bytes : List Nat
deriving DecidableEq

/-- Authentication `Tag`: `pub struct Tag(pub [u8; TAGBYTES])`. -/
structure Tag where
  bytes : List Nat
deriving DecidableEq

/-- `authenticate()` from the source: delegates to the primitive
(`$auth_name(&mut tag, m.as_ptr(), m.len(), k)`) and wraps the written
tag bytes in a `Tag`. -/
def authenticate (P : MacPrimitive) (m : List Nat) (k : Key) : Tag :=
  Tag.mk (P.auth_name m k.bytes)

/-- `verify()` from the source: delegates to the primitive and compares the
returned C int against `0` (`$verify_name(tag, m.as_ptr(), m.len(), k) == 0`). -/
def verify (P : MacPrimitive) (t : Tag) (m : List Nat) (k : Key) : Bool :=
  P.verify_name t.bytes m k.bytes == 0

/-- Streaming authentication `State`: `pub struct State($state_name)`, holding
the raw memory of the C context struct. -/
structure State (P : MacPrimitive) where
  ctx : List Nat

/-- `State::init()` from the source: `$init_name(&mut s, k.as_ptr(), k.len())`
on an uninitialized context, for a key slice of any length. -/
def State.init (P : MacPrimitive) (k : List Nat) : State P :=
  State.mk (P.init_name k)

/-- `State::update()` from the source:
`$update_name(state, in_.as_ptr(), in_.len())`. -/
def State.update {P : MacPrimitive} (s : State P) (in_ : List Nat) : State P :=
  State.mk (P.update_name s.ctx in_)

/-- `State::finalize()` from the source: `$final_name(state, &mut tag)` writes
the tag and mutates the context in place; the embedding returns the written
`Tag` together with the post-call state. -/
def State.finalize {P : MacPrimitive} (s : State P) : Tag × State P :=
  (Tag.mk (P.final_name s.ctx).1, State.mk (P.final_name s.ctx).2)

/-- The `Drop` impl for `State` from the source:
`ffi::sodium_memzero(sp as *mut u8, mem::size_of_val(s))` overwrites the whole
context memory with zero bytes. -/
def State.drop {P : MacPrimitive} (s : State P) : State P :=
  State.mk (List.replicate s.ctx.length 0)

/-- Modelled from the spec: `newtype_drop!(Key)` (a macro of this repository
that is not under `src/`) gives `Key` a `Drop` implementation that zeroes out
its contents when the `Key` goes out of scope. -/
def Key.drop (k : Key) : Key :=
  Key.mk (List.replicate k.bytes.length 0)

/-- A state's backing memory contains only zero bytes. -/
def State.zeroized {P : MacPrimitive} (s : State P) : Prop :=
  ∀ b ∈ s.ctx, b = 0

/-- A key's backing memory contains only zero bytes. -/
def Key.zeroized (k : Key) : Prop :=
  ∀ b ∈ k.bytes, b = 0

/-- Modelled from the spec: `newtype_impl!` (a macro of this repository that is
not under `src/`) generates a `Tag::from_slice` constructor that rejects, with
an explicit `Option` error result, any slice whose byte length differs from
`TAGBYTES`. -/
def Tag.from_slice (P : MacPrimitive) (bs : List Nat) : Option Tag :=
  if bs.length = P.tagbytes then some (Tag.mk bs) else none

/-- Modelled from the spec: `sodiumoxide::crypto::verify::safe_memcmp` (code of
this repository that is not under `src/`), the constant-time comparison behind
`Tag`'s `PartialEq`/`Eq`: a loop over every index of the two fixed-length
arrays that accumulates the xor of the byte pairs and tests the accumulator at
the end.  The second component counts the loop iterations performed, so the
work the comparison does is part of the model. -/
def safe_memcmp_run (x y : List Nat) : Nat × Nat :=
  (x.zip y).foldl (fun acc p => (acc.1 ||| (p.1 ^^^ p.2), acc.2 + 1)) (0, 0)

/-- The boolean result of the constant-time comparison. -/
def safe_memcmp (x y : List Nat) : Bool :=
  decide ((safe_memcmp_run x y).1 = 0)

/-- The `PartialEq` implementation of `Tag` (via `non_secret_newtype_impl!` /
`newtype_impl!`): constant-time comparison of the two byte arrays. -/
def Tag.ct_eq (a b : Tag) : Bool :=
  safe_memcmp a.bytes b.bytes

/-- A concrete executable MAC primitive used to instantiate the development on
concrete inputs.  Its one-shot tag is the single byte
`(message length + key byte sum) mod 256` and its streaming context memory is
the two bytes `[key byte sum, message bytes seen]`; it satisfies the
incremental contract the design document assigns to the external primitive. -/
def toyAuth (m k : List Nat) : List Nat :=
  [(m.length + k.sum) % 256]

/-- The toy primitive's one-shot verification: C result `0` iff the tag is the
recomputed authenticator. -/
def toyVerify (t m k : List Nat) : Int :=
  if t = toyAuth m k then 0 else -1

/-- The toy primitive's context initialization. -/
def toyInit (k : List Nat) : List Nat :=
  [k.sum, 0]

/-- The toy primitive's context update: adds the chunk length to the running
count; malformed context memory is left unchanged. -/
def toyUpdate (s c : List Nat) : List Nat :=
  match s with
  | a :: n :: r => a :: (n + c.length) :: r
  | s => s

/-- The toy primitive's context finalization: writes the tag and leaves the
(secret-derived) context memory in place, like the C final functions. -/
def toyFinal (s : List Nat) : List Nat × List Nat :=
  match s with
  | a :: n :: r => ([(n + a) % 256], a :: n :: r)
  | s => ([0], s)

/-- The toy primitive packaged as a `MacPrimitive` (key size 32, tag size 1). -/
def toyP : MacPrimitive :=
  ⟨32, 1, toyAuth, toyVerify, toyInit, toyUpdate, toyFinal⟩

instance {P : MacPrimitive} (s : State P) : Decidable (State.zeroized s) :=
  inferInstanceAs (Decidable (∀ b ∈ s.ctx, b = 0))

instance (k : Key) : Decidable (Key.zeroized k) :=
  inferInstanceAs (Decidable (∀ b ∈ k.bytes, b = 0))

/-- Zero-length updates leave the toy context unchanged. -/
theorem toyUpdate_nil (s : List Nat) : toyUpdate s [] = s := by
  rcases s with _ | ⟨a, _ | ⟨n, r⟩⟩ <;> simp [toyUpdate]

/-- Consecutive toy updates combine into one update on the concatenation. -/
theorem toyUpdate_append (s a b : List Nat) :
    toyUpdate (toyUpdate s a) b = toyUpdate s (a ++ b) := by
  rcases s with _ | ⟨x, _ | ⟨n, r⟩⟩
  · simp [toyUpdate]
  · simp [toyUpdate]
  · simp [toyUpdate, Nat.add_assoc]

/-- One full toy streaming pass agrees with the toy one-shot tag. -/
theorem toyFinal_contract (k m : List Nat) :
    (toyFinal (toyUpdate (toyInit k) m)).1 = toyAuth m k := by
  simp [toyInit, toyUpdate, toyFinal, toyAuth]

/-- The toy verification returns `0` exactly on the recomputed authenticator. -/
theorem toyVerify_iff (t m k : List Nat) :
    toyVerify t m k = 0 ↔ t = toyAuth m k := by
  by_cases h : t = toyAuth m k
  · simp [toyVerify, h]
  · simp [toyVerify, h]

/-- Bitwise or of naturals vanishes exactly when both sides vanish. -/
theorem or_eq_zero_iff_both (a b : Nat) : a ||| b = 0 ↔ a = 0 ∧ b = 0 := by
  constructor
  · intro h
    have ha : a = 0 := by
      apply Nat.eq_of_testBit_eq
      intro i
      have h2 := congrArg (fun n => n.testBit i) h
      simp only [Nat.testBit_or, Nat.zero_testBit, Bool.or_eq_false_iff] at h2
      simp [h2.1]
    have hb : b = 0 := by
      apply Nat.eq_of_testBit_eq
      intro i
      have h2 := congrArg (fun n => n.testBit i) h
      simp only [Nat.testBit_or, Nat.zero_testBit, Bool.or_eq_false_iff] at h2
      simp [h2.2]
    exact ⟨ha, hb⟩
  · rintro ⟨rfl, rfl⟩
    rfl

/-- The or-accumulator of byte-pair xors vanishes exactly when it started at
zero and every pair is equal. -/
theorem foldl_or_xor_eq_zero (l : List (Nat × Nat)) (a : Nat) :
    l.foldl (fun acc p => acc ||| (p.1 ^^^ p.2)) a = 0 ↔
      a = 0 ∧ ∀ p ∈ l, p.1 = p.2 := by
  induction l generalizing a with
  | nil => simp
  | cons q t ih =>
    simp only [List.foldl_cons, ih, or_eq_zero_iff_both, Nat.xor_eq_zero,
      List.forall_mem_cons]
    tauto

/-- The accumulator component of `safe_memcmp_run`'s loop is the plain
or-accumulation, independent of the iteration counter. -/
theorem safe_memcmp_run_fst (l : List (Nat × Nat)) (a n : Nat) :
    (l.foldl (fun acc p => (acc.1 ||| (p.1 ^^^ p.2), acc.2 + 1)) (a, n)).1 =
      l.foldl (fun acc p => acc ||| (p.1 ^^^ p.2)) a := by
  induction l generalizing a n with
  | nil => rfl
  | cons q t ih => simp only [List.foldl_cons, ih]

/-- The comparison loop performs exactly one iteration per index pair,
whatever the byte contents are. -/
theorem safe_memcmp_run_snd (l : List (Nat × Nat)) (a n : Nat) :
    (l.foldl (fun acc p => (acc.1 ||| (p.1 ^^^ p.2), acc.2 + 1)) (a, n)).2 =
      n + l.length := by
  induction l generalizing a n with
  | nil => simp
  | cons q t ih =>
    simp only [List.foldl_cons, ih, List.length_cons]
    omega

/-- Pointwise equality of the zip of two equal-length lists is equality. -/
theorem zip_pointwise_eq (x : List Nat) : ∀ (y : List Nat),
    x.length = y.length → ((∀ p ∈ x.zip y, p.1 = p.2) ↔ x = y) := by
  induction x with
  | nil =>
    intro y h
    cases y with
    | nil => simp
    | cons b u => simp at h
  | cons a t ih =>
    intro y h
    cases y with
    | nil => simp at h
    | cons b u =>
      simp only [List.zip_cons_cons, List.forall_mem_cons, List.cons.injEq]
      rw [ih u (by simpa using h)]

/-- Two tags are equal exactly when their byte arrays are. -/
theorem tag_bytes_inj (a b : Tag) : a.bytes = b.bytes ↔ a = b := by
  cases a
  cases b
  simp

/-- Folding the primitive's update over a chunk list is one update on the
flattened message, given the primitive's incremental contract. -/
theorem foldl_update_name_flatten (P : MacPrimitive)
    (hu0 : ∀ s, P.update_name s [] = s)
    (hu : ∀ s a b, P.update_name (P.update_name s a) b = P.update_name s (a ++ b)) :
    ∀ (chunks : List (List Nat)) (c : List Nat),
      chunks.foldl P.update_name c = P.update_name c chunks.flatten := by
  intro chunks
  induction chunks with
  | nil =>
    intro c
    simp [hu0]
  | cons ch t ih =>
    intro c
    simp only [List.foldl_cons, List.flatten_cons]
    rw [ih, hu]

/-- The context reached by folding `State.update` is the fold of the
primitive's update over the raw contexts. -/
theorem foldl_state_update_ctx (P : MacPrimitive) :
    ∀ (chunks : List (List Nat)) (s : State P),
      (chunks.foldl State.update s).ctx = chunks.foldl P.update_name s.ctx := by
  intro chunks
  induction chunks with
  | nil =>
    intro s
    rfl
  | cons ch t ih =>
    intro s
    simp only [List.foldl_cons]
    rw [ih]
    rfl

/-- C1: for every key `k`, every chunk partition of a message (including the
empty partition and single-byte chunking), initializing a `State` with the
key's bytes, updating once per chunk in order, and finalizing yields a `Tag`
identical to `authenticate` on the concatenated message — given the
incremental contract of the external primitive (zero-length update is the
identity, updates combine over concatenation, and one full streaming pass
agrees with the one-shot function). -/
theorem streaming_matches_one_shot (P : MacPrimitive)
    (hu0 : ∀ s, P.update_name s [] = s)
    (hu : ∀ s a b, P.update_name (P.update_name s a) b = P.update_name s (a ++ b))
    (hf : ∀ k m, (P.final_name (P.update_name (P.init_name k) m)).1 = P.auth_name m k)
    (k : Key) (chunks : List (List Nat)) :
    (State.finalize (chunks.foldl State.update (State.init P k.bytes))).1 =
      authenticate P chunks.flatten k := by
  have h1 : (chunks.foldl State.update (State.init P k.bytes)).ctx =
      P.update_name (P.init_name k.bytes) chunks.flatten := by
    rw [foldl_state_update_ctx, foldl_update_name_flatten P hu0 hu]
    rfl
  show Tag.mk (P.final_name (chunks.foldl State.update (State.init P k.bytes)).ctx).1 = _
  rw [h1, hf]
  rfl

/-- Witness for C1: a three-chunk partition (with a zero-length chunk) of the
message `[1, 2, 3]` under the toy primitive. -/
theorem streaming_matches_one_shot_witness :
    (State.finalize ([[1], [], [2, 3]].foldl State.update
        (State.init toyP (Key.mk [5]).bytes))).1 =
      authenticate toyP [[1], [], [2, 3]].flatten (Key.mk [5]) :=
  streaming_matches_one_shot toyP toyUpdate_nil toyUpdate_append toyFinal_contract
    (Key.mk [5]) [[1], [], [2, 3]]

/-- C2: for every key and every message, `verify (authenticate m k) m k` is
`true` — given that the external verification primitive returns `0` exactly on
the recomputed authenticator. -/
theorem verify_authenticate_roundtrip (P : MacPrimitive)
    (hv : ∀ t m k, P.verify_name t m k = 0 ↔ t = P.auth_name m k)
    (m : List Nat) (k : Key) :
    verify P (authenticate P m k) m k = true := by
  have h := (hv (P.auth_name m k.bytes) m k.bytes).mpr rfl
  simp [verify, authenticate, h]

/-- Witness for C2: round trip on the message `[1, 2]` under the toy
primitive, the empty-message case being covered by the theorem as well. -/
theorem verify_authenticate_roundtrip_witness :
    verify toyP (authenticate toyP [1, 2] (Key.mk [7])) [1, 2] (Key.mk [7]) = true :=
  verify_authenticate_roundtrip toyP toyVerify_iff [1, 2] (Key.mk [7])

/-- C3: `verify t m k` is `true` exactly when `t` equals the authenticator of
`m` under `k`; any mismatch is the boolean `false` (the function is total into
`Bool`, there is no error path) — given that the external verification
primitive returns `0` exactly on the recomputed authenticator. -/
theorem verify_iff_tag_matches (P : MacPrimitive)
    (hv : ∀ t m k, P.verify_name t m k = 0 ↔ t = P.auth_name m k)
    (t : Tag) (m : List Nat) (k : Key) :
    verify P t m k = true ↔ t = authenticate P m k := by
  obtain ⟨tb⟩ := t
  simp [verify, authenticate, hv]

/-- Witness for C3: a wrong tag under the toy primitive, where both sides of
the equivalence are false. -/
theorem verify_iff_tag_matches_witness :
    verify toyP (Tag.mk [9]) [1, 2] (Key.mk [7]) = true ↔
      Tag.mk [9] = authenticate toyP [1, 2] (Key.mk [7]) :=
  verify_iff_tag_matches toyP toyVerify_iff (Tag.mk [9]) [1, 2] (Key.mk [7])

/-- C4 (amended): `finalize` itself performs no zeroization — it leaves the
primitive's post-final context in the `State` — and the context memory becomes
all zero bytes when the `State` is dropped, the `Drop` impl overwriting it
with `sodium_memzero`. -/
theorem finalize_context_zeroized_at_drop (P : MacPrimitive) (s : State P) :
    (State.finalize s).2 = State.mk (P.final_name s.ctx).2 ∧
      State.zeroized (State.drop (State.finalize s).2) := by
  refine ⟨rfl, ?_⟩
  intro b hb
  exact List.eq_of_mem_replicate hb

/-- Counterexample to C4 as stated: under the toy primitive, after
`init [5]`, `update [1, 2, 3]` and `finalize`, the state's context memory is
`[5, 3]`, not zero bytes — the zeroing is deferred to the drop of the
`State`, it does not happen during the `finalize` call. -/
theorem finalize_does_not_zeroize_cx :
    ¬ State.zeroized (State.finalize (State.update (State.init toyP [5]) [1, 2, 3])).2 := by
  intro h
  have h5 : (5 : Nat) ∈ ((State.finalize (State.update (State.init toyP [5]) [1, 2, 3])).2).ctx := by
    show (5 : Nat) ∈ [5, 3]
    simp
  exact absurd (h 5 h5) (by decide)

/-- C5 (amended): misuse before `init` is structurally impossible (the only
public constructor of `State` is `init`), but `finalize` borrows the `State`
mutably instead of consuming it, so a second `finalize` on the same `State` is
well-typed and simply runs the primitive's final function again on the
post-final context. -/
theorem second_finalize_well_typed (P : MacPrimitive) (s : State P) :
    (State.finalize ((State.finalize s).2)).1 =
      Tag.mk (P.final_name (P.final_name s.ctx).2).1 :=
  rfl

/-- Counterexample to C5 as stated: double `finalize` is representable and
produces a tag — with the toy primitive, finalizing `init [5]` twice yields
the tag `[5]` — so calling `finalize` twice is permitted by the API shape,
not made structurally unrepresentable. -/
theorem double_finalize_representable_cx :
    (State.finalize (State.finalize (State.init toyP [5])).2).1 = Tag.mk [5] := by
  decide

/-- C6: dropping a `Key` or a `State` overwrites its backing memory with zero
bytes: after the drop glue runs, every byte of the buffer is `0`. -/
theorem drop_zeroizes (P : MacPrimitive) (k : Key) (s : State P) :
    Key.zeroized (Key.drop k) ∧ State.zeroized (State.drop s) := by
  constructor
  · intro b hb
    exact List.eq_of_mem_replicate hb
  · intro b hb
    exact List.eq_of_mem_replicate hb

/-- C7: `authenticate` is deterministic — it is a function of the message and
the key bytes alone (no nonce, salt, or random input occurs in its call), so
equal inputs give bit-for-bit equal tags. -/
theorem authenticate_deterministic (P : MacPrimitive) (m₁ m₂ : List Nat)
    (k₁ k₂ : Key) (hm : m₁ = m₂) (hk : k₁ = k₂) :
    authenticate P m₁ k₁ = authenticate P m₂ k₂ := by
  rw [hm, hk]

/-- Witness for C7: two calls on the message `[1, 2]` and key `[3]` under the
toy primitive. -/
theorem authenticate_deterministic_witness :
    authenticate toyP [1, 2] (Key.mk [3]) = authenticate toyP [1, 2] (Key.mk [3]) :=
  authenticate_deterministic toyP [1, 2] [1, 2] (Key.mk [3]) (Key.mk [3]) rfl rfl

/-- C8: the constant-time comparison behind `Tag` equality performs exactly
`TAGBYTES` loop iterations on any pair of tags — the work does not depend on
where (or whether) the tags differ, only on the fixed length — and it decides
exactly equality of the tags. -/
theorem tag_comparison_constant_time (P : MacPrimitive) (a b c d : Tag)
    (ha : a.bytes.length = P.tagbytes) (hb : b.bytes.length = P.tagbytes)
    (hc : c.bytes.length = P.tagbytes) (hd : d.bytes.length = P.tagbytes) :
    (safe_memcmp_run a.bytes b.bytes).2 = P.tagbytes ∧
    (safe_memcmp_run a.bytes b.bytes).2 = (safe_memcmp_run c.bytes d.bytes).2 ∧
    (Tag.ct_eq a b = true ↔ a = b) := by
  have hsnd : ∀ (x y : List Nat), x.length = P.tagbytes → y.length = P.tagbytes →
      (safe_memcmp_run x y).2 = P.tagbytes := by
    intro x y hx hy
    rw [safe_memcmp_run, safe_memcmp_run_snd, List.length_zip, hx, hy]
    simp
  have hlen : a.bytes.length = b.bytes.length := by
    rw [ha, hb]
  refine ⟨hsnd _ _ ha hb, by rw [hsnd _ _ ha hb, hsnd _ _ hc hd], ?_⟩
  have h1 : Tag.ct_eq a b = true ↔ (∀ p ∈ a.bytes.zip b.bytes, p.1 = p.2) := by
    simp only [Tag.ct_eq, safe_memcmp, safe_memcmp_run, decide_eq_true_eq]
    rw [safe_memcmp_run_fst, foldl_or_xor_eq_zero]
    simp
  rw [h1, zip_pointwise_eq a.bytes b.bytes hlen, tag_bytes_inj]

/-- Witness for C8: an unequal pair and an equal pair of one-byte tags
(`toyP.tagbytes = 1`), where the loop runs once in both cases. -/
theorem tag_comparison_constant_time_witness :
    (safe_memcmp_run (Tag.mk [0]).bytes (Tag.mk [5]).bytes).2 = toyP.tagbytes ∧
    (safe_memcmp_run (Tag.mk [0]).bytes (Tag.mk [5]).bytes).2 =
      (safe_memcmp_run (Tag.mk [7]).bytes (Tag.mk [7]).bytes).2 ∧
    (Tag.ct_eq (Tag.mk [0]) (Tag.mk [5]) = true ↔ Tag.mk [0] = Tag.mk [5]) :=
  tag_comparison_constant_time toyP (Tag.mk [0]) (Tag.mk [5]) (Tag.mk [7]) (Tag.mk [7])
    rfl rfl rfl rfl

/-- C9: constructing a `Tag` from external bytes is rejected at the
construction boundary with the explicit error result `none` exactly when the
byte length differs from `TAGBYTES`; a slice of the right length yields the
tag (the constructor is total, it cannot panic). -/
theorem tag_from_slice_length_boundary (P : MacPrimitive) (bs : List Nat) :
    Tag.from_slice P bs = none ↔ bs.length ≠ P.tagbytes := by
  unfold Tag.from_slice
  by_cases h : bs.length = P.tagbytes
  · simp [h]
  · simp [h]

/-- C10: the streaming interface is total at the public interface — `init`
returns a `State` for a key slice of any length (including the empty slice),
`update` accepts chunks of any length, and `finalize` always returns a tag;
each is a plain function of its inputs with no error return path. -/
theorem streaming_interface_total (P : MacPrimitive) (k c : List Nat) (s : State P) :
    State.init P k = State.mk (P.init_name k) ∧
    State.update s c = State.mk (P.update_name s.ctx c) ∧
    State.finalize s = (Tag.mk (P.final_name s.ctx).1, State.mk (P.final_name s.ctx).2) :=
  ⟨rfl, rfl, rfl⟩

end SodiumAuth
